import Mathlib

/-!
# chainbridge-core: the EVM listener's block-scan loop and the voter selection of `app.Run`

Shallow embedding of

* `chains/evm/listener/listener.go` : `EVMListener.ListenToEvents`
* `example/app/app.go`              : `Run` (the per-chain construction loop)

`*big.Int` values are Lean `Int`s.  Calls that leave the function (the chain client,
the event handlers, the block store, the logger, `time.Sleep`) are recorded as events
of a trace; what they return is supplied from outside, one `Tick` per loop iteration.
`HandleEvent` and `StoreBlock` are taken not to write to the `*big.Int`s they are handed.
-/

namespace Big

/-- Go's conversion `int64(u)` of a `uint64` bit pattern, and `int64` negation:
the value is reduced into `[-2^63, 2^63)` modulo `2^64`. -/
def wrapInt64 (n : Int) : Int := (n + 2 ^ 63) % 2 ^ 64 - 2 ^ 63

/-- Go `math/big`, `(*Int).Int64`:
`v := int64(low64(x.abs)); if x.neg { v = -v }; return v`. -/
def Int64 (x : Int) : Int :=
  let v := wrapInt64 (Int.ofNat (x.natAbs % 2 ^ 64))
  if x < 0 then wrapInt64 (-v) else v

end Big

namespace Listener

/-- The fields of `EVMListener` that `ListenToEvents` reads.  Event handlers are
represented by their names, in registration order; `client` and `blockstore` are the
outside world (see `Tick`). -/
structure EVMListener where
  eventHandlers : List String
  domainID : Nat
  blockRetryInterval : Nat
  blockConfirmations : Int
  blockInterval : Int

/-- What `ListenToEvents` does to the outside world. -/
inductive Event where
  | logError (msg : String)
  | sleep (d : Nat)
  | handleEvent (handler : String) (startBlock endBlock : Int)
  | storeBlock (block : Int) (domainID : Nat) (err : Option String)
  | errChn (err : String)
  deriving DecidableEq, Repr

/-- What the outside world answers during one iteration of the loop:
the result of `client.LatestBlock()`, the error returned by the handler at each
position of `eventHandlers` (`none` is `nil`), and the error returned by
`blockstore.StoreBlock`. -/
structure Tick where
  latestBlock : Except String Int
  handleEvent : Nat → Option String
  storeBlock : Option String

/-- The local variables of `ListenToEvents` at the head of the loop:
`startBlock` (`none` is `nil`) and `endBlock`. -/
structure State where
  startBlock : Option Int
  endBlock : Int
  deriving DecidableEq, Repr

/-- Lines 77-83: `for _, handler := range l.eventHandlers`: every handler is called with
`(startBlock, endBlock - 1)`; an error is logged and the loop continues. -/
def runHandlers (t : Tick) (startBlock endBlock : Int) : Nat → List String → List Event
  | _, [] => []
  | i, h :: hs =>
    match t.handleEvent i with
    | some err =>
      Event.handleEvent h startBlock (endBlock - 1) :: Event.logError err ::
        runHandlers t startBlock endBlock (i + 1) hs
    | none =>
      Event.handleEvent h startBlock (endBlock - 1) ::
        runHandlers t startBlock endBlock (i + 1) hs

/-- Lines 85-89: `err = l.blockstore.StoreBlock(endBlock, l.domainID)`, logged on error. -/
def writeBlock (l : EVMListener) (t : Tick) (endBlock : Int) : List Event :=
  match t.storeBlock with
  | some err => [Event.storeBlock endBlock l.domainID (some err), Event.logError err]
  | none => [Event.storeBlock endBlock l.domainID none]

/-- Lines 66-68: `if startBlock == nil { startBlock = big.NewInt(head.Int64()) }`. -/
def resolveStart (s : State) (head : Int) : Int :=
  match s.startBlock with
  | none => Big.Int64 head
  | some b => b

/-- One iteration of the `default:` branch of the loop (lines 60-91). -/
def tick (l : EVMListener) (s : State) (t : Tick) : State × List Event :=
  match t.latestBlock with
  | .error err => (s, [Event.logError err, Event.sleep l.blockRetryInterval])
  | .ok head =>
    let startBlock := resolveStart s head
    let endBlock := startBlock + l.blockInterval
    if head - endBlock < l.blockConfirmations then
      (⟨some startBlock, endBlock⟩, [Event.sleep l.blockRetryInterval])
    else
      (⟨some (startBlock + l.blockInterval), endBlock⟩,
        runHandlers t startBlock endBlock 0 l.eventHandlers ++ writeBlock l t endBlock)

/-- The loop of `ListenToEvents`, run for as many iterations as there are ticks;
`ctx.Done()` is observed at the head of the iteration after the last tick. -/
def loop (l : EVMListener) : State → List Tick → State × List Event
  | s, [] => (s, [])
  | s, t :: ts =>
    let r := tick l s t
    let rest := loop l r.1 ts
    (rest.1, r.2 ++ rest.2)

/-- The function `ListenToEvents` called with `startBlock`: `endBlock := big.NewInt(0)`,
then the loop. -/
def ListenToEvents (l : EVMListener) (startBlock : Option Int) (ts : List Tick) :
    State × List Event :=
  loop l ⟨startBlock, 0⟩ ts

/-! ### Observations on a trace -/

/-- The calls of `HandleEvent`, in order: handler, start block, end block. -/
def handlerCalls : List Event → List (String × Int × Int)
  | [] => []
  | Event.handleEvent h a b :: es => (h, a, b) :: handlerCalls es
  | _ :: es => handlerCalls es

/-- The calls of `StoreBlock`, in order: block, domain id. -/
def storeCalls : List Event → List (Int × Nat)
  | [] => []
  | Event.storeBlock b d _ :: es => (b, d) :: storeCalls es
  | _ :: es => storeCalls es

/-- The blocks whose `StoreBlock` call returned `nil`, in order. -/
def persisted : List Event → List Int
  | [] => []
  | Event.storeBlock b _ none :: es => b :: persisted es
  | _ :: es => persisted es

/-- The errors sent on `errChn`, in order. -/
def errChnSends : List Event → List String
  | [] => []
  | Event.errChn e :: es => e :: errChnSends es
  | _ :: es => errChnSends es

/-- Block `b` lies in a range that was passed to handler `h`. -/
def scanned (evs : List Event) (h : String) (b : Int) : Bool :=
  (handlerCalls evs).any (fun c => c.1 == h && decide (c.2.1 ≤ b) && decide (b ≤ c.2.2))

/-- The head returned by the first successful `LatestBlock` call, if any. -/
def firstHead : List Tick → Option Int
  | [] => none
  | t :: ts =>
    match t.latestBlock with
    | .ok head => some head
    | .error _ => firstHead ts

/-- The start of the first window of a run: the `startBlock` argument if given, otherwise
what lines 66-68 make of the first head. -/
def initialStart (startBlock : Option Int) (ts : List Tick) : Option Int :=
  match startBlock with
  | some b => some b
  | none => (firstHead ts).map Big.Int64

/-- The event is a handler invocation or a `StoreBlock` call. -/
def isCall : Event → Bool
  | Event.handleEvent _ _ _ => true
  | Event.storeBlock _ _ _ => true
  | _ => false

/-- The handler invocations and `StoreBlock` calls of a trace, in order. -/
def calls (evs : List Event) : List Event := evs.filter isCall

/-- The tick's `LatestBlock` call succeeded. -/
def succeeded (t : Tick) : Bool :=
  match t.latestBlock with
  | .ok _ => true
  | .error _ => false

/-- The handler calls of `m` successive rounds of width `blockInterval` from `st`. -/
def roundCalls (l : EVMListener) (st : Int) (m : Nat) : List (String × Int × Int) :=
  (List.range m).flatMap (fun (k : Nat) =>
    l.eventHandlers.map (fun h =>
      (h, st + (k : Int) * l.blockInterval, st + ((k : Int) + 1) * l.blockInterval - 1)))

/-- The `StoreBlock` calls of `m` successive rounds from `st`. -/
def roundStores (l : EVMListener) (st : Int) (m : Nat) : List (Int × Nat) :=
  (List.range m).map (fun (k : Nat) => (st + ((k : Int) + 1) * l.blockInterval, l.domainID))

/-- The points of one iteration started in state `s`: the events the iteration has made so
far, with the local variables at that point.  Line 60 is reached in `s`; lines 66-68 set
`startBlock`, line 69 sets `endBlock`; after each event up to line 89 the variables are
unchanged; line 91 advances `startBlock`. -/
def tickPoints (l : EVMListener) (s : State) (t : Tick) : List (List Event × State) :=
  match t.latestBlock with
  | .error err =>
    ([Event.logError err, Event.sleep l.blockRetryInterval].inits).map (fun evs => (evs, s))
  | .ok head =>
    let startBlock := resolveStart s head
    let endBlock := startBlock + l.blockInterval
    if head - endBlock < l.blockConfirmations then
      [([], s), ([], ⟨some startBlock, s.endBlock⟩)] ++
        ([Event.sleep l.blockRetryInterval].inits).map
          (fun evs => (evs, ⟨some startBlock, endBlock⟩))
    else
      [([], s), ([], ⟨some startBlock, s.endBlock⟩)] ++
        ((runHandlers t startBlock endBlock 0 l.eventHandlers ++
            writeBlock l t endBlock).inits).map
          (fun evs => (evs, ⟨some startBlock, endBlock⟩)) ++
        [(runHandlers t startBlock endBlock 0 l.eventHandlers ++ writeBlock l t endBlock,
          ⟨some (startBlock + l.blockInterval), endBlock⟩)]

/-- The states `ListenToEvents` can be in during a run over the ticks, inside an iteration
too, each with the trace made up to that state. -/
def reachable (l : EVMListener) : State → List Tick → List (List Event × State)
  | s, [] => [([], s)]
  | s, t :: ts =>
    tickPoints l s t ++
      (reachable l (tick l s t).1 ts).map (fun p => ((tick l s t).2 ++ p.1, p.2))

/-! ### Concrete inputs -/

/-- A listener with one handler, domain 1, 5 confirmations and ranges of 10 blocks. -/
def exampleListener : EVMListener := ⟨["deposit"], 1, 5, 5, 10⟩

/-- A listener like `exampleListener` whose handler list holds the same handler twice. -/
def twiceListener : EVMListener := ⟨["deposit", "deposit"], 1, 5, 5, 10⟩

/-- A tick in which `LatestBlock` returns `head` and no handler or store call fails. -/
def okTick (head : Int) : Tick := ⟨.ok head, fun _ => none, none⟩

/-- A tick in which `LatestBlock` returns an error. -/
def errTick : Tick := ⟨.error "rpc", fun _ => none, none⟩

/-- A tick in which `LatestBlock` returns `head`, every handler fails and the store fails. -/
def failTick (head : Int) : Tick := ⟨.ok head, fun _ => some "handler", some "store"⟩

end Listener

namespace App

/-- One entry of `configuration.ChainConfigs` (a `map[string]interface{}`), as far as `Run`
reads it directly: `chainConfig["type"]` and `chainConfig["gasLimit"].(uint64)` (`none` when
the type assertion fails). -/
structure RawChainConfig where
  chainType : String
  gasLimit : Option Nat
  entries : List (String × String)

/-- The fields of `chain.EVMConfig` that `Run` and `NewEVMListener` read. -/
structure EVMConfig where
  id : Nat
  endpoint : String
  useKms : Bool
  key : String
  kmsConfig : String
  bridge : String
  erc20Handler : String
  erc721Handler : String
  genericHandler : String
  blockRetryInterval : Nat
  blockConfirmations : Int
  blockInterval : Int

/-- The database opened by `lvldb.NewLvlDB`, wrapped by `store.NewBlockStore`. -/
structure BlockStore where
  path : String
  deriving DecidableEq

/-- The client returned by `ethclient.Dial`. -/
structure EthClient where
  endpoint : String

/-- The signer returned by `kms.NewKMSSignerFromConfig`, with the chain id given to it by
`WithChainID`. -/
structure KMSSigner where
  config : String
  chainID : Option Nat

/-- An `evmclient.EVMClient`, named by the endpoint and the signer it was made with. -/
structure EVMClient where
  endpoint : String
  signer : String
  deriving DecidableEq

/-- The bridge contract of `bridge.NewBridgeContract(client, address, t)`; the transactor `t`
is `signAndSend` over the same client with the static gas pricer. -/
structure BridgeContract where
  client : EVMClient
  address : String
  deriving DecidableEq

/-- The message handler of `executor.NewEVMMessageHandler(bridgeContract)` with the handlers
registered on it: address and handler function name, in registration order. -/
structure EVMMessageHandler where
  bridgeContract : BridgeContract
  handlers : List (String × String)
  deriving DecidableEq

/-- The struct `transactor.TransactOptions` as `Run` fills it. -/
structure TransactOptions where
  gasLimit : Nat
  deriving DecidableEq

/-- The chain of `evm.NewEVMChain(evmListener, evmVoter, blockstore, config)`; `V` is the
type of voters. -/
structure EVMChain (V : Type) where
  listener : Listener.EVMListener
  voter : V
  blockstore : BlockStore
  domainID : Nat

/-- The calls of `Run` that may fail, with the values of the two flags it reads. -/
structure Env where
  configFlag : String
  blockstoreFlag : String
  getConfig : String → Except String (List RawChainConfig)
  newLvlDB : String → Except String BlockStore
  newEVMConfig : RawChainConfig → Except String EVMConfig
  dial : String → Except String EthClient
  chainID : EthClient → Except String Nat
  newKMSSignerFromConfig : String → Except String KMSSigner
  newEVMClientWithKMSSigner : String → KMSSigner → Except String EVMClient
  hexToECDSA : String → Except String String
  newEVMClient : String → String → Except String EVMClient

/-- Lines 65-97: the client, with a KMS signer or with the private key of the
configuration.  An error is a panic. -/
def newClient (env : Env) (config : EVMConfig) : Except String EVMClient :=
  if config.useKms then
    match env.dial config.endpoint with
    | .error err => .error err
    | .ok tmpEvmClient =>
      match env.chainID tmpEvmClient with
      | .error err => .error err
      | .ok chainID =>
        match env.newKMSSignerFromConfig config.kmsConfig with
        | .error err => .error err
        | .ok kmsSigner =>
          env.newEVMClientWithKMSSigner config.endpoint ⟨kmsSigner.config, some chainID⟩
  else
    match env.hexToECDSA config.key with
    | .error err => .error err
    | .ok privateKey => env.newEVMClient config.endpoint privateKey

/-- What `Run` has built for one chain when it reaches line 126. -/
structure Parts where
  config : EVMConfig
  client : EVMClient
  bridgeContract : BridgeContract
  evmListener : Listener.EVMListener
  mh : EVMMessageHandler
  transactOptions : TransactOptions

/-- Lines 60-124 of the `case "evm"` branch.  An error is a panic. -/
def chainParts (env : Env) (chainConfig : RawChainConfig) : Except String Parts :=
  match env.newEVMConfig chainConfig with
  | .error err => .error err
  | .ok config =>
    match newClient env config with
    | .error err => .error err
    | .ok client =>
      let bridgeContract : BridgeContract := ⟨client, config.bridge⟩
      let evmListener : Listener.EVMListener :=
        ⟨["DepositEventHandler"], config.id, config.blockRetryInterval,
          config.blockConfirmations, config.blockInterval⟩
      let mh : EVMMessageHandler :=
        ⟨bridgeContract, [(config.erc20Handler, "ERC20MessageHandler"),
          (config.erc721Handler, "ERC721MessageHandler"),
          (config.genericHandler, "GenericMessageHandler")]⟩
      match chainConfig.gasLimit with
      | none => .error "wrong gas limit"
      | some gasLimit =>
        .ok ⟨config, client, bridgeContract, evmListener, mh, ⟨gasLimit⟩⟩

/-- Lines 126-131: the voter of the chain, with what is logged.
`newVoterWithSubscription` and `newVoter` stand for `executor.NewVoterWithSubscription` and
`executor.NewVoter`. -/
def selectVoter {V : Type}
    (newVoterWithSubscription :
      EVMMessageHandler → EVMClient → BridgeContract → TransactOptions → Except String V)
    (newVoter : EVMMessageHandler → EVMClient → BridgeContract → TransactOptions → V)
    (p : Parts) : V × List String :=
  match newVoterWithSubscription p.mh p.client p.bridgeContract p.transactOptions with
  | .ok evmVoter => (evmVoter, [])
  | .error err =>
    (newVoter p.mh p.client p.bridgeContract p.transactOptions,
      ["failed creating voter with subscription: " ++ err ++
        ". Falling back to default voter."])

/-- Lines 55-140: the loop over `configuration.ChainConfigs`; the result is the slice
`chains` with the log, or the panic. -/
def buildChains {V : Type} (env : Env)
    (newVoterWithSubscription :
      EVMMessageHandler → EVMClient → BridgeContract → TransactOptions → Except String V)
    (newVoter : EVMMessageHandler → EVMClient → BridgeContract → TransactOptions → V)
    (blockstore : BlockStore) :
    List RawChainConfig → Except String (List (EVMChain V) × List String)
  | [] => .ok ([], [])
  | chainConfig :: rest =>
    if chainConfig.chainType = "evm" then
      match chainParts env chainConfig with
      | .error err => .error err
      | .ok p =>
        let v := selectVoter newVoterWithSubscription newVoter p
        match buildChains env newVoterWithSubscription newVoter blockstore rest with
        | .error err => .error err
        | .ok r => .ok (⟨p.evmListener, v.1, blockstore, p.config.id⟩ :: r.1, v.2 ++ r.2)
    else
      .error ("type '" ++ chainConfig.chainType ++ "' not recognized")

/-- The function `Run` up to `relayer.NewRelayer(chains, ...)` (lines 42-145): the chain set
handed to the relayer with the log, or the panic. -/
def Run {V : Type} (env : Env)
    (newVoterWithSubscription :
      EVMMessageHandler → EVMClient → BridgeContract → TransactOptions → Except String V)
    (newVoter : EVMMessageHandler → EVMClient → BridgeContract → TransactOptions → V) :
    Except String (List (EVMChain V) × List String) :=
  match env.getConfig env.configFlag with
  | .error err => .error err
  | .ok configuration =>
    match env.newLvlDB env.blockstoreFlag with
    | .error err => .error err
    | .ok db => buildChains env newVoterWithSubscription newVoter db configuration

/-- A configuration with one EVM chain, for which every call but the subscription succeeds. -/
def exampleEnv : Env :=
  { configFlag := "config.json"
    blockstoreFlag := "./lvldbdata"
    getConfig := fun _ => .ok [⟨"evm", some 2000000, []⟩]
    newLvlDB := fun path => .ok ⟨path⟩
    newEVMConfig := fun _ =>
      .ok ⟨1, "ws://localhost:8545", false, "key", "", "0xbridge", "0xerc20", "0xerc721",
        "0xgeneric", 5, 5, 10⟩
    dial := fun endpoint => .ok ⟨endpoint⟩
    chainID := fun _ => .ok 1
    newKMSSignerFromConfig := fun c => .ok ⟨c, none⟩
    newEVMClientWithKMSSigner := fun endpoint s => .ok ⟨endpoint, s.config⟩
    hexToECDSA := fun key => .ok key
    newEVMClient := fun endpoint key => .ok ⟨endpoint, key⟩ }

/-- A `NewVoterWithSubscription` that always fails; voters are named by kind and gas limit. -/
def failingSubscription :
    EVMMessageHandler → EVMClient → BridgeContract → TransactOptions →
      Except String (String × Nat) :=
  fun _ _ _ _ => .error "no websocket"

/-- A `NewVoter` naming the voter it makes by kind and gas limit. -/
def pollingVoter :
    EVMMessageHandler → EVMClient → BridgeContract → TransactOptions → String × Nat :=
  fun _ _ _ o => ("polling", o.gasLimit)

end App

namespace Listener

/-! ### Lemmas on traces -/

theorem handlerCalls_append (xs ys : List Event) :
    handlerCalls (xs ++ ys) = handlerCalls xs ++ handlerCalls ys := by
  induction xs with
  | nil => rfl
  | cons e es ih => cases e <;> simp [handlerCalls, ih]

theorem storeCalls_append (xs ys : List Event) :
    storeCalls (xs ++ ys) = storeCalls xs ++ storeCalls ys := by
  induction xs with
  | nil => rfl
  | cons e es ih => cases e <;> simp [storeCalls, ih]

theorem persisted_append (xs ys : List Event) :
    persisted (xs ++ ys) = persisted xs ++ persisted ys := by
  induction xs with
  | nil => rfl
  | cons e es ih =>
    cases e with
    | storeBlock b d err => cases err <;> simp [persisted, ih]
    | _ => simp [persisted, ih]

theorem errChnSends_append (xs ys : List Event) :
    errChnSends (xs ++ ys) = errChnSends xs ++ errChnSends ys := by
  induction xs with
  | nil => rfl
  | cons e es ih => cases e <;> simp [errChnSends, ih]

theorem handlerCalls_runHandlers (t : Tick) (a e : Int) (hs : List String) (i : Nat) :
    handlerCalls (runHandlers t a e i hs) = hs.map (fun h => (h, a, e - 1)) := by
  induction hs generalizing i with
  | nil => rfl
  | cons h hs ih =>
    cases hi : t.handleEvent i <;> simp [runHandlers, hi, handlerCalls, ih]

theorem storeCalls_runHandlers (t : Tick) (a e : Int) (hs : List String) (i : Nat) :
    storeCalls (runHandlers t a e i hs) = [] := by
  induction hs generalizing i with
  | nil => rfl
  | cons h hs ih =>
    cases hi : t.handleEvent i <;> simp [runHandlers, hi, storeCalls, ih]

theorem persisted_runHandlers (t : Tick) (a e : Int) (hs : List String) (i : Nat) :
    persisted (runHandlers t a e i hs) = [] := by
  induction hs generalizing i with
  | nil => rfl
  | cons h hs ih =>
    cases hi : t.handleEvent i <;> simp [runHandlers, hi, persisted, ih]

theorem errChnSends_runHandlers (t : Tick) (a e : Int) (hs : List String) (i : Nat) :
    errChnSends (runHandlers t a e i hs) = [] := by
  induction hs generalizing i with
  | nil => rfl
  | cons h hs ih =>
    cases hi : t.handleEvent i <;> simp [runHandlers, hi, errChnSends, ih]

theorem handlerCalls_writeBlock (l : EVMListener) (t : Tick) (e : Int) :
    handlerCalls (writeBlock l t e) = [] := by
  cases hs : t.storeBlock <;> simp [writeBlock, hs, handlerCalls]

theorem storeCalls_writeBlock (l : EVMListener) (t : Tick) (e : Int) :
    storeCalls (writeBlock l t e) = [(e, l.domainID)] := by
  cases hs : t.storeBlock <;> simp [writeBlock, hs, storeCalls]

theorem errChnSends_writeBlock (l : EVMListener) (t : Tick) (e : Int) :
    errChnSends (writeBlock l t e) = [] := by
  cases hs : t.storeBlock <;> simp [writeBlock, hs, errChnSends]

theorem persisted_writeBlock (l : EVMListener) (t : Tick) (e : Int) :
    persisted (writeBlock l t e) = if t.storeBlock = none then [e] else [] := by
  cases hs : t.storeBlock <;> simp [writeBlock, hs, persisted]

theorem mem_handlerCalls {evs : List Event} {h : String} {a b : Int} :
    Event.handleEvent h a b ∈ evs ↔ (h, a, b) ∈ handlerCalls evs := by
  induction evs with
  | nil => simp [handlerCalls]
  | cons e es ih => cases e <;> simp [handlerCalls, ih]

/-- A tick whose `LatestBlock` fails. -/
theorem tick_error (l : EVMListener) (s : State) (t : Tick) (err : String)
    (h : t.latestBlock = .error err) :
    tick l s t = (s, [Event.logError err, Event.sleep l.blockRetryInterval]) := by
  simp [tick, h]

/-- A tick that waits for confirmations. -/
theorem tick_wait (l : EVMListener) (s : State) (t : Tick) (head : Int)
    (h : t.latestBlock = .ok head)
    (hc : head - (resolveStart s head + l.blockInterval) < l.blockConfirmations) :
    tick l s t = (⟨some (resolveStart s head), resolveStart s head + l.blockInterval⟩,
      [Event.sleep l.blockRetryInterval]) := by
  simp [tick, h, hc]

/-- A tick that passes the confirmation check. -/
theorem tick_pass (l : EVMListener) (s : State) (t : Tick) (head : Int)
    (h : t.latestBlock = .ok head)
    (hc : ¬ head - (resolveStart s head + l.blockInterval) < l.blockConfirmations) :
    tick l s t = (⟨some (resolveStart s head + l.blockInterval),
        resolveStart s head + l.blockInterval⟩,
      runHandlers t (resolveStart s head) (resolveStart s head + l.blockInterval) 0
        l.eventHandlers ++ writeBlock l t (resolveStart s head + l.blockInterval)) := by
  simp [tick, h, hc]

theorem scanned_iff (evs : List Event) (h : String) (b : Int) :
    scanned evs h b = true ↔ ∃ lo hi, (h, lo, hi) ∈ handlerCalls evs ∧ lo ≤ b ∧ b ≤ hi := by
  unfold scanned
  rw [List.any_eq_true]
  constructor
  · rintro ⟨⟨h', lo, hi⟩, hm, hp⟩
    simp only [Bool.and_eq_true, beq_iff_eq, decide_eq_true_eq] at hp
    obtain ⟨⟨rfl, h1⟩, h2⟩ := hp
    exact ⟨lo, hi, hm, h1, h2⟩
  · rintro ⟨lo, hi, hm, h1, h2⟩
    exact ⟨(h, lo, hi), hm, by simp [h1, h2]⟩

theorem scanned_append_left (xs ys : List Event) (h : String) (b : Int)
    (hx : scanned xs h b = true) : scanned (xs ++ ys) h b = true := by
  rw [scanned_iff] at hx ⊢
  obtain ⟨lo, hi, hm, h1, h2⟩ := hx
  exact ⟨lo, hi, by simp [handlerCalls_append, hm], h1, h2⟩

theorem scanned_append_right (xs ys : List Event) (h : String) (b : Int)
    (hy : scanned ys h b = true) : scanned (xs ++ ys) h b = true := by
  rw [scanned_iff] at hy ⊢
  obtain ⟨lo, hi, hm, h1, h2⟩ := hy
  exact ⟨lo, hi, by simp [handlerCalls_append, hm], h1, h2⟩

theorem mem_roundCalls (l : EVMListener) (st : Int) (m : Nat) (h : String) (lo hi : Int) :
    (h, lo, hi) ∈ roundCalls l st m ↔
      ∃ k : Nat, k < m ∧ h ∈ l.eventHandlers ∧ lo = st + (k : Int) * l.blockInterval ∧
        hi = st + ((k : Int) + 1) * l.blockInterval - 1 := by
  unfold roundCalls
  simp only [List.mem_flatMap, List.mem_range, List.mem_map, Prod.mk.injEq]
  constructor
  · rintro ⟨k, hk, h', hh, rfl, rfl, rfl⟩
    exact ⟨k, hk, hh, rfl, rfl⟩
  · rintro ⟨k, hk, hh, rfl, rfl⟩
    exact ⟨k, hk, h, hh, rfl, rfl, rfl⟩

theorem mem_roundStores (l : EVMListener) (st : Int) (m : Nat) (c : Int) (d : Nat) :
    (c, d) ∈ roundStores l st m ↔
      ∃ k : Nat, k < m ∧ c = st + ((k : Int) + 1) * l.blockInterval ∧ d = l.domainID := by
  unfold roundStores
  simp only [List.mem_map, List.mem_range, Prod.mk.injEq]
  constructor
  · rintro ⟨k, hk, rfl, rfl⟩
    exact ⟨k, hk, rfl, rfl⟩
  · rintro ⟨k, hk, rfl, rfl⟩
    exact ⟨k, hk, rfl, rfl⟩

/-- Every block of `[st, st + m * blockInterval)` lies in one of the `m` rounds. -/
theorem round_of_block (i st b : Int) (m : Nat) (h1 : st ≤ b)
    (h2 : b < st + (m : Int) * i) :
    ∃ k : Nat, k < m ∧ st + (k : Int) * i ≤ b ∧ b ≤ st + ((k : Int) + 1) * i - 1 := by
  induction m with
  | zero => simp at h2; omega
  | succ m ih =>
    by_cases hb : b < st + (m : Int) * i
    · obtain ⟨k, hk, h3, h4⟩ := ih hb
      exact ⟨k, by omega, h3, h4⟩
    · refine ⟨m, by omega, by omega, ?_⟩
      push_cast at h2
      omega

theorem persisted_sub_storeCalls (evs : List Event) (c : Int) (hc : c ∈ persisted evs) :
    ∃ d, (c, d) ∈ storeCalls evs := by
  induction evs with
  | nil => simp [persisted] at hc
  | cons e es ih =>
    cases e with
    | storeBlock b d err =>
      cases err with
      | none =>
        simp only [persisted, List.mem_cons] at hc
        rcases hc with rfl | hc
        · exact ⟨d, by simp [storeCalls]⟩
        · obtain ⟨d', hd⟩ := ih hc
          exact ⟨d', by simp [storeCalls, hd]⟩
      | some err =>
        simp only [persisted] at hc
        obtain ⟨d', hd⟩ := ih hc
        exact ⟨d', by simp [storeCalls, hd]⟩
    | _ =>
      simp only [persisted] at hc
      obtain ⟨d', hd⟩ := ih hc
      exact ⟨d', by simp [storeCalls, hd]⟩

theorem round_le (i : Int) (k m : Nat) (hi : 0 ≤ i) (hk : k < m) :
    ((k : Int) + 1) * i ≤ (m : Int) * i := by
  have : ((k : Int) + 1) ≤ (m : Int) := by exact_mod_cast hk
  exact Int.mul_le_mul_of_nonneg_right this hi

/-! ### The loop -/

theorem loop_append (l : EVMListener) (s : State) (ts us : List Tick) :
    loop l s (ts ++ us) =
      ((loop l (loop l s ts).1 us).1, (loop l s ts).2 ++ (loop l (loop l s ts).1 us).2) := by
  induction ts generalizing s with
  | nil => simp [loop]
  | cons t ts ih => simp [loop, ih, List.append_assoc]

theorem roundCalls_succ (l : EVMListener) (st : Int) (m : Nat) :
    roundCalls l st (m + 1) =
      l.eventHandlers.map (fun h => (h, st, st + l.blockInterval - 1)) ++
        roundCalls l (st + l.blockInterval) m := by
  unfold roundCalls
  rw [List.range_succ_eq_map, List.flatMap_cons, List.flatMap_map]
  congr 1
  · simp
  · congr 1
    funext k
    congr 1
    funext h
    simp only [Nat.succ_eq_add_one]
    push_cast
    congr 2 <;> ring

theorem roundStores_succ (l : EVMListener) (st : Int) (m : Nat) :
    roundStores l st (m + 1) =
      (st + l.blockInterval, l.domainID) :: roundStores l (st + l.blockInterval) m := by
  unfold roundStores
  rw [List.range_succ_eq_map, List.map_cons, List.map_map]
  congr 1
  · simp
  · congr 1
    funext k
    simp only [Function.comp, Nat.succ_eq_add_one]
    push_cast
    congr 1
    ring

/-- Started with a block, the loop performs some number `m` of rounds: its handler and
store calls are those of `m` successive rounds and the cursor is `m` intervals on. -/
theorem loop_some (l : EVMListener) (ts : List Tick) (st e : Int) :
    ∃ m : Nat,
      (loop l ⟨some st, e⟩ ts).1.startBlock = some (st + m * l.blockInterval) ∧
      handlerCalls (loop l ⟨some st, e⟩ ts).2 = roundCalls l st m ∧
      storeCalls (loop l ⟨some st, e⟩ ts).2 = roundStores l st m ∧
      errChnSends (loop l ⟨some st, e⟩ ts).2 = [] := by
  induction ts generalizing st e with
  | nil => exact ⟨0, by simp [loop], by simp [loop, handlerCalls, roundCalls],
      by simp [loop, storeCalls, roundStores], by simp [loop, errChnSends]⟩
  | cons t ts ih =>
    cases hl : t.latestBlock with
    | error err =>
      obtain ⟨m, h1, h2, h3, h4⟩ := ih st e
      have ht := tick_error l ⟨some st, e⟩ t err hl
      refine ⟨m, ?_, ?_, ?_, ?_⟩
      · simp [loop, ht, h1]
      · simp [loop, ht, h2, handlerCalls_append, handlerCalls]
      · simp [loop, ht, h3, storeCalls_append, storeCalls]
      · simp [loop, ht, h4, errChnSends_append, errChnSends]
    | ok head =>
      by_cases hc : head - (st + l.blockInterval) < l.blockConfirmations
      · obtain ⟨m, h1, h2, h3, h4⟩ := ih st (st + l.blockInterval)
        have ht := tick_wait l ⟨some st, e⟩ t head hl hc
        simp only [resolveStart] at ht
        refine ⟨m, ?_, ?_, ?_, ?_⟩
        · simp [loop, ht, h1]
        · simp [loop, ht, h2, handlerCalls_append, handlerCalls]
        · simp [loop, ht, h3, storeCalls_append, storeCalls]
        · simp [loop, ht, h4, errChnSends_append, errChnSends]
      · obtain ⟨m, h1, h2, h3, h4⟩ := ih (st + l.blockInterval) (st + l.blockInterval)
        have ht := tick_pass l ⟨some st, e⟩ t head hl hc
        simp only [resolveStart] at ht
        refine ⟨m + 1, ?_, ?_, ?_, ?_⟩
        · simp only [loop, ht, h1]
          congr 1
          push_cast
          ring
        · simp only [loop, ht, handlerCalls_append, h2, handlerCalls_runHandlers,
            handlerCalls_writeBlock, roundCalls_succ, List.append_nil]
        · simp only [loop, ht, storeCalls_append, h3, storeCalls_runHandlers,
            storeCalls_writeBlock, roundStores_succ, List.nil_append, List.singleton_append]
        · simp [loop, ht, errChnSends_append, h4, errChnSends_runHandlers,
            errChnSends_writeBlock]

/-! ### `Int64` on heads that fit -/

/-- For a head in `[0, 2^63)` the copy made at lines 66-68 is the head itself. -/
theorem resolveStart_of_fits (e head : Int) (h0 : 0 ≤ head) (h1 : head < 2 ^ 63) :
    resolveStart ⟨none, e⟩ head = head := by
  have hn : ¬ head < 0 := by omega
  have hk : (2 : Int) ^ 63 = 9223372036854775808 := by norm_num
  have hk4 : (2 : Int) ^ 64 = 18446744073709551616 := by norm_num
  have hm : (head.natAbs % 2 ^ 64 : Nat) = head.natAbs := by
    apply Nat.mod_eq_of_lt
    have : (2 : Nat) ^ 64 = 18446744073709551616 := by norm_num
    omega
  simp only [resolveStart, Big.Int64, Big.wrapInt64, hn, if_false, hm, Int.ofNat_eq_coe,
    Int.natCast_natAbs, abs_of_nonneg h0]
  rw [hk, hk4]
  omega

/-! ### Runs that start without a block -/

theorem loop_firstHead (l : EVMListener) (ts : List Tick) (e head : Int)
    (hf : firstHead ts = some head) :
    loop l ⟨none, e⟩ ts = loop l ⟨some (Big.Int64 head), e⟩ ts := by
  induction ts with
  | nil => simp [firstHead] at hf
  | cons t ts ih =>
    cases hl : t.latestBlock with
    | error err =>
      simp only [firstHead, hl] at hf
      simp only [loop, tick_error l _ t err hl, ih hf]
    | ok head' =>
      simp only [firstHead, hl, Option.some.injEq] at hf
      subst hf
      have : tick l ⟨none, e⟩ t = tick l ⟨some (Big.Int64 head'), e⟩ t := by
        simp [tick, hl, resolveStart]
      simp only [loop, this]

theorem loop_no_head (l : EVMListener) (ts : List Tick) (s : State)
    (hf : firstHead ts = none) :
    (loop l s ts).1 = s ∧ handlerCalls (loop l s ts).2 = [] ∧
      storeCalls (loop l s ts).2 = [] ∧ errChnSends (loop l s ts).2 = [] := by
  induction ts with
  | nil => simp [loop, handlerCalls, storeCalls, errChnSends]
  | cons t ts ih =>
    cases hl : t.latestBlock with
    | error err =>
      simp only [firstHead, hl] at hf
      obtain ⟨h1, h2, h3, h4⟩ := ih hf
      simp [loop, tick_error l _ t err hl, h1, h2, h3, h4, handlerCalls_append,
        storeCalls_append, errChnSends_append, handlerCalls, storeCalls, errChnSends]
    | ok head' => simp [firstHead, hl] at hf

/-- Whatever the `startBlock` argument, a run whose first window starts at `s0` makes the
calls of some number of successive rounds from `s0`. -/
theorem run_rounds (l : EVMListener) (startBlock : Option Int) (ts : List Tick) (s0 : Int)
    (h0 : initialStart startBlock ts = some s0) :
    ∃ m : Nat,
      (ListenToEvents l startBlock ts).1.startBlock = some (s0 + m * l.blockInterval) ∧
      handlerCalls (ListenToEvents l startBlock ts).2 = roundCalls l s0 m ∧
      storeCalls (ListenToEvents l startBlock ts).2 = roundStores l s0 m ∧
      errChnSends (ListenToEvents l startBlock ts).2 = [] := by
  cases startBlock with
  | some b =>
    simp only [initialStart, Option.some.injEq] at h0
    subst h0
    exact loop_some l ts b 0
  | none =>
    simp only [initialStart, Option.map_eq_some'] at h0
    obtain ⟨head, hf, rfl⟩ := h0
    unfold ListenToEvents
    rw [loop_firstHead l ts 0 head hf]
    exact loop_some l ts _ 0

/-- A run in which no `LatestBlock` call succeeds and no start was given makes no call. -/
theorem run_no_start (l : EVMListener) (startBlock : Option Int) (ts : List Tick)
    (h0 : initialStart startBlock ts = none) :
    handlerCalls (ListenToEvents l startBlock ts).2 = [] ∧
      storeCalls (ListenToEvents l startBlock ts).2 = [] := by
  cases startBlock with
  | some b => simp [initialStart] at h0
  | none =>
    simp only [initialStart, Option.map_eq_none'] at h0
    obtain ⟨_, h2, h3, _⟩ := loop_no_head l ts ⟨none, 0⟩ h0
    exact ⟨h2, h3⟩

theorem roundStores_increasing (l : EVMListener) (st : Int) (m : Nat)
    (hi : 1 ≤ l.blockInterval) :
    List.Pairwise (fun a b => a < b) ((roundStores l st m).map Prod.fst) := by
  unfold roundStores
  rw [List.map_map, List.pairwise_map]
  refine (List.pairwise_lt_range m).imp ?_
  intro a b hab
  simp only [Function.comp]
  have h1 : ((a : Int) + 1) ≤ (b : Int) := by exact_mod_cast hab
  have h2 : ((a : Int) + 1) * l.blockInterval ≤ (b : Int) * l.blockInterval :=
    Int.mul_le_mul_of_nonneg_right h1 (by omega)
  have h3 : ((b : Int) + 1) * l.blockInterval = (b : Int) * l.blockInterval + l.blockInterval := by
    ring
  omega

theorem roundCalls_disjoint (l : EVMListener) (st : Int) (m : Nat)
    (hi : 1 ≤ l.blockInterval) (hn : l.eventHandlers.Nodup) :
    List.Pairwise (fun c d => c.1 = d.1 → c.2.2 < d.2.1) (roundCalls l st m) := by
  induction m generalizing st with
  | zero => simp [roundCalls]
  | succ m ih =>
    rw [roundCalls_succ, List.pairwise_append]
    refine ⟨?_, ih (st + l.blockInterval), ?_⟩
    · rw [List.pairwise_map]
      exact hn.imp (fun hab heq => absurd heq hab)
    · rintro ⟨h, lo, hi'⟩ hc ⟨h', lo', hi''⟩ hd _
      simp only [List.mem_map, Prod.mk.injEq] at hc
      obtain ⟨_, _, _, rfl, rfl⟩ := hc
      rw [mem_roundCalls] at hd
      obtain ⟨k, _, _, rfl, _⟩ := hd
      have : 0 ≤ (k : Int) * l.blockInterval :=
        Int.mul_nonneg (Int.ofNat_nonneg k) (by omega)
      show st + l.blockInterval - 1 < st + l.blockInterval + (k : Int) * l.blockInterval
      omega

/-! ### Prefixes of a trace -/

theorem scanned_runHandlers (t : Tick) (a e b : Int) (hs : List String) (i : Nat) (h : String)
    (hh : h ∈ hs) (h1 : a ≤ b) (h2 : b ≤ e - 1) :
    scanned (runHandlers t a e i hs) h b = true := by
  rw [scanned_iff]
  refine ⟨a, e - 1, ?_, h1, h2⟩
  rw [handlerCalls_runHandlers]
  exact List.mem_map.mpr ⟨h, hh, rfl⟩

theorem persisted_nil_of_append (xs p q : List Event) (hx : persisted xs = [])
    (hs : xs = p ++ q) : persisted p = [] := by
  rw [hs, persisted_append] at hx
  exact (List.append_eq_nil.mp hx).1

/-- One tick from a set start `st`: the start does not go back, the tick's trace covers the
blocks the start moves over, and at every point inside the tick a value already persisted by
the tick is at most the new start and has its blocks from `st` on already handled. -/
theorem tick_some_split (l : EVMListener) (st e : Int) (t : Tick)
    (hi : 0 ≤ l.blockInterval) :
    ∃ st' e', (tick l ⟨some st, e⟩ t).1 = ⟨some st', e'⟩ ∧ st ≤ st' ∧
      (∀ b, st ≤ b → b < st' → ∀ h ∈ l.eventHandlers,
        scanned (tick l ⟨some st, e⟩ t).2 h b = true) ∧
      (∀ p q, (tick l ⟨some st, e⟩ t).2 = p ++ q → ∀ c ∈ persisted p, c ≤ st' ∧
        ∀ b, st ≤ b → b < c → ∀ h ∈ l.eventHandlers, scanned p h b = true) := by
  cases hl : t.latestBlock with
  | error err =>
    rw [tick_error l _ t err hl]
    refine ⟨st, e, rfl, le_refl _, fun b h1 h2 => by omega, ?_⟩
    intro p q hs c hc
    rw [persisted_nil_of_append _ p q (by simp [persisted]) hs] at hc
    simp at hc
  | ok head =>
    by_cases hc : head - (st + l.blockInterval) < l.blockConfirmations
    · have ht := tick_wait l ⟨some st, e⟩ t head hl hc
      simp only [resolveStart] at ht
      rw [ht]
      refine ⟨st, st + l.blockInterval, rfl, le_refl _, fun b h1 h2 => by omega, ?_⟩
      intro p q hs c hc
      rw [persisted_nil_of_append _ p q (by simp [persisted]) hs] at hc
      simp at hc
    · have ht := tick_pass l ⟨some st, e⟩ t head hl hc
      simp only [resolveStart] at ht
      rw [ht]
      refine ⟨st + l.blockInterval, st + l.blockInterval, rfl, by omega, ?_, ?_⟩
      · intro b h1 h2 h hh
        exact scanned_append_left _ _ h b
          (scanned_runHandlers t st _ b _ 0 h hh h1 (by omega))
      · intro p q hs c hcp
        rcases List.append_eq_append_iff.mp hs with ⟨a', hp, hw⟩ | ⟨c', hr, _⟩
        · have hcw : c ∈ persisted (writeBlock l t (st + l.blockInterval)) := by
            rw [hw, persisted_append]
            rw [hp, persisted_append, persisted_runHandlers, List.nil_append] at hcp
            exact List.mem_append_left _ hcp
          rw [persisted_writeBlock] at hcw
          have hceq : c = st + l.blockInterval := by
            split at hcw
            · simpa using hcw
            · simp at hcw
          subst hceq
          refine ⟨le_refl _, ?_⟩
          intro b h1 h2 h hh
          rw [hp]
          exact scanned_append_left _ _ h b
            (scanned_runHandlers t st _ b _ 0 h hh h1 (by omega))
        · rw [persisted_nil_of_append _ p c' (persisted_runHandlers _ _ _ _ _) hr] at hcp
          simp at hcp

/-- At every point of a run from a set start, any value persisted so far has all blocks
below it, from `s0` on, already handled by every handler; `acc` is what happened before. -/
theorem loop_safe (l : EVMListener) (s0 : Int) (hi : 0 ≤ l.blockInterval) (ts : List Tick) :
    ∀ (st e : Int) (acc : List Event),
      (∀ b, s0 ≤ b → b < st → ∀ h ∈ l.eventHandlers, scanned acc h b = true) →
      (∀ c ∈ persisted acc, c ≤ st) →
      ∀ pre suf, (loop l ⟨some st, e⟩ ts).2 = pre ++ suf →
        ∀ c ∈ persisted (acc ++ pre), ∀ b, s0 ≤ b → b < c → ∀ h ∈ l.eventHandlers,
          scanned (acc ++ pre) h b = true := by
  induction ts with
  | nil =>
    intro st e acc hcov hper pre suf hs c hc b h1 h2 h hh
    simp only [loop] at hs
    have hpre : pre = [] := (List.append_eq_nil.mp hs.symm).1
    subst hpre
    rw [List.append_nil] at hc ⊢
    exact hcov b h1 (lt_of_lt_of_le h2 (hper c hc)) h hh
  | cons t ts ih =>
    intro st e acc hcov hper pre suf hs c hc b h1 h2 h hh
    obtain ⟨st', e', hst, hle, hcov', hsplit⟩ := tick_some_split l st e t hi
    simp only [loop] at hs
    rcases List.append_eq_append_iff.mp hs with ⟨c', hp, hrest⟩ | ⟨a', htr, _⟩
    · rw [hst] at hrest
      have hcovn : ∀ b, s0 ≤ b → b < st' → ∀ h ∈ l.eventHandlers,
          scanned (acc ++ (tick l ⟨some st, e⟩ t).2) h b = true := by
        intro b h1 h2 h hh
        by_cases hb : b < st
        · exact scanned_append_left _ _ h b (hcov b h1 hb h hh)
        · exact scanned_append_right _ _ h b (hcov' b (by omega) h2 h hh)
      have hpern : ∀ c ∈ persisted (acc ++ (tick l ⟨some st, e⟩ t).2), c ≤ st' := by
        intro c hc
        rw [persisted_append, List.mem_append] at hc
        rcases hc with hc | hc
        · exact le_trans (hper c hc) hle
        · exact (hsplit _ [] (by simp) c hc).1
      have := ih st' e' (acc ++ (tick l ⟨some st, e⟩ t).2) hcovn hpern c' suf hrest
      rw [hp, ← List.append_assoc] at hc ⊢
      exact this c hc b h1 h2 h hh
    · rw [persisted_append, List.mem_append] at hc
      rcases hc with hc | hc
      · exact scanned_append_left _ _ h b (hcov b h1 (lt_of_lt_of_le h2 (hper c hc)) h hh)
      · obtain ⟨_, hsc⟩ := hsplit pre a' htr c hc
        by_cases hb : b < st
        · exact scanned_append_left _ _ h b (hcov b h1 hb h hh)
        · exact scanned_append_right _ _ h b (hsc b (by omega) h2 h hh)

/-! ### States inside an iteration -/

theorem tickPoints_split (l : EVMListener) (s : State) (t : Tick) (p : List Event × State)
    (hp : p ∈ tickPoints l s t) : ∃ suf, (tick l s t).2 = p.1 ++ suf := by
  cases hl : t.latestBlock with
  | error err =>
    simp only [tickPoints, hl, List.mem_map, List.mem_inits] at hp
    obtain ⟨evs, ⟨suf, hs⟩, rfl⟩ := hp
    exact ⟨suf, by rw [tick_error l s t err hl]; exact hs.symm⟩
  | ok head =>
    by_cases hc : head - (resolveStart s head + l.blockInterval) < l.blockConfirmations
    · simp only [tickPoints, hl, hc, if_true, List.mem_append, List.mem_cons, List.mem_map,
        List.mem_inits, List.mem_singleton, List.not_mem_nil, or_false] at hp
      rw [tick_wait l s t head hl hc]
      rcases hp with (rfl | rfl) | ⟨evs, ⟨suf, hs⟩, rfl⟩
      · exact ⟨_, rfl⟩
      · exact ⟨_, rfl⟩
      · exact ⟨suf, hs.symm⟩
    · simp only [tickPoints, hl, hc, if_false, List.mem_append, List.mem_cons, List.mem_map,
        List.mem_inits, List.mem_singleton, List.not_mem_nil, or_false] at hp
      rw [tick_pass l s t head hl hc]
      rcases hp with ((rfl | rfl) | ⟨evs, ⟨suf, hs⟩, rfl⟩) | rfl
      · exact ⟨_, rfl⟩
      · exact ⟨_, rfl⟩
      · exact ⟨suf, hs.symm⟩
      · exact ⟨[], by simp⟩

theorem reachable_split (l : EVMListener) (ts : List Tick) (s : State)
    (p : List Event × State) (hp : p ∈ reachable l s ts) :
    ∃ suf, (loop l s ts).2 = p.1 ++ suf := by
  induction ts generalizing s p with
  | nil =>
    simp only [reachable, List.mem_singleton] at hp
    subst hp
    exact ⟨[], rfl⟩
  | cons t ts ih =>
    simp only [reachable, List.mem_append, List.mem_map] at hp
    rcases hp with hp | ⟨q, hq, rfl⟩
    · obtain ⟨suf, hs⟩ := tickPoints_split l s t p hp
      exact ⟨suf ++ (loop l (tick l s t).1 ts).2, by simp [loop, hs]⟩
    · obtain ⟨suf, hs⟩ := ih _ q hq
      exact ⟨suf, by simp [loop, hs]⟩

/-- The state at the head of the loop after a run is one of the reachable states. -/
theorem loop_mem_reachable (l : EVMListener) (ts : List Tick) (s : State) :
    ((loop l s ts).2, (loop l s ts).1) ∈ reachable l s ts := by
  induction ts generalizing s with
  | nil => simp [loop, reachable]
  | cons t ts ih =>
    simp only [reachable, loop, List.mem_append, List.mem_map]
    exact Or.inr ⟨_, ih (tick l s t).1, rfl⟩

theorem tick_start_le (l : EVMListener) (st e : Int) (t : Tick) (hi : 0 ≤ l.blockInterval) :
    ∃ st' e', (tick l ⟨some st, e⟩ t).1 = ⟨some st', e'⟩ ∧ st ≤ st' ∧
      st' ≤ st + l.blockInterval ∧
      ∀ p q, (tick l ⟨some st, e⟩ t).2 = p ++ q → ∀ c ∈ persisted p, c ≤ st' := by
  obtain ⟨st', e', hst, hle, _, hsplit⟩ := tick_some_split l st e t hi
  refine ⟨st', e', hst, hle, ?_, fun p q h c hc => (hsplit p q h c hc).1⟩
  cases hl : t.latestBlock with
  | error err =>
    rw [tick_error l _ t err hl] at hst
    simp only [State.mk.injEq, Option.some.injEq] at hst
    omega
  | ok head =>
    by_cases hc : head - (st + l.blockInterval) < l.blockConfirmations
    · have ht := tick_wait l ⟨some st, e⟩ t head hl hc
      simp only [resolveStart] at ht
      rw [ht] at hst
      simp only [State.mk.injEq, Option.some.injEq] at hst
      omega
    · have ht := tick_pass l ⟨some st, e⟩ t head hl hc
      simp only [resolveStart] at ht
      rw [ht] at hst
      simp only [State.mk.injEq, Option.some.injEq] at hst
      omega

/-- Inside an iteration from a set start `st` the start is `st` or the start the iteration
ends with, and a value the iteration has persisted is at most one interval above it. -/
theorem tickPoints_bound (l : EVMListener) (st e : Int) (t : Tick)
    (hi : 0 ≤ l.blockInterval) (p : List Event × State)
    (hp : p ∈ tickPoints l ⟨some st, e⟩ t) :
    ∃ st', p.2.startBlock = some st' ∧ st ≤ st' ∧
      ∀ c ∈ persisted p.1, c ≤ st' + l.blockInterval := by
  obtain ⟨st'', e'', hst, hle, hle', hper⟩ := tick_start_le l st e t hi
  obtain ⟨suf, hsuf⟩ := tickPoints_split l _ t p hp
  have hstart : p.2.startBlock = some st ∨ p.2.startBlock = some st'' := by
    cases hl : t.latestBlock with
    | error err =>
      simp only [tickPoints, hl, List.mem_map, List.mem_inits] at hp
      obtain ⟨evs, _, rfl⟩ := hp
      exact Or.inl rfl
    | ok head =>
      by_cases hc : head - (st + l.blockInterval) < l.blockConfirmations
      · simp only [tickPoints, hl, resolveStart, hc, if_true, List.mem_append, List.mem_cons,
          List.mem_map, List.mem_singleton, List.not_mem_nil, or_false] at hp
        rcases hp with (rfl | rfl) | ⟨evs, _, rfl⟩ <;> exact Or.inl rfl
      · have ht := tick_pass l ⟨some st, e⟩ t head hl hc
        simp only [resolveStart] at ht
        rw [ht] at hst
        simp only [State.mk.injEq, Option.some.injEq] at hst
        simp only [tickPoints, hl, resolveStart, hc, if_false, List.mem_append, List.mem_cons,
          List.mem_map, List.mem_singleton, List.not_mem_nil, or_false] at hp
        rcases hp with ((rfl | rfl) | ⟨evs, _, rfl⟩) | rfl
        · exact Or.inl rfl
        · exact Or.inl rfl
        · exact Or.inl rfl
        · exact Or.inr (by simp [hst.1])
  rcases hstart with h | h
  · exact ⟨st, h, le_refl _, fun c hc => le_trans (hper p.1 suf hsuf c hc) hle'⟩
  · exact ⟨st'', h, hle, fun c hc => le_trans (hper p.1 suf hsuf c hc) (by omega)⟩

/-- In every reachable state of a run from a set start the start is set and a value
persisted so far is at most one interval above it; `acc` is what happened before. -/
theorem reachable_bound (l : EVMListener) (hi : 0 ≤ l.blockInterval) (ts : List Tick) :
    ∀ (st e : Int) (acc : List Event), (∀ c ∈ persisted acc, c ≤ st) →
      ∀ p ∈ reachable l ⟨some st, e⟩ ts,
        ∃ st', p.2.startBlock = some st' ∧ st ≤ st' ∧
          ∀ c ∈ persisted (acc ++ p.1), c ≤ st' + l.blockInterval := by
  induction ts with
  | nil =>
    intro st e acc hacc p hp
    simp only [reachable, List.mem_singleton] at hp
    subst hp
    refine ⟨st, rfl, le_refl _, ?_⟩
    intro c hc
    rw [List.append_nil] at hc
    have := hacc c hc
    omega
  | cons t ts ih =>
    intro st e acc hacc p hp
    simp only [reachable, List.mem_append, List.mem_map] at hp
    rcases hp with hp | ⟨q, hq, rfl⟩
    · obtain ⟨st', h1, h2, h3⟩ := tickPoints_bound l st e t hi p hp
      refine ⟨st', h1, h2, ?_⟩
      intro c hc
      rw [persisted_append, List.mem_append] at hc
      rcases hc with hc | hc
      · have := hacc c hc
        omega
      · exact h3 c hc
    · obtain ⟨st'', e'', hst, hle, _, hper⟩ := tick_start_le l st e t hi
      rw [hst] at hq
      have hacc' : ∀ c ∈ persisted (acc ++ (tick l ⟨some st, e⟩ t).2), c ≤ st'' := by
        intro c hc
        rw [persisted_append, List.mem_append] at hc
        rcases hc with hc | hc
        · exact le_trans (hacc c hc) hle
        · exact hper _ [] (by simp) c hc
      obtain ⟨st', h1, h2, h3⟩ := ih st'' e'' _ hacc' q hq
      refine ⟨st', h1, le_trans hle h2, ?_⟩
      intro c hc
      rw [← List.append_assoc] at hc
      exact h3 c hc

theorem roundCalls_ordered (l : EVMListener) (st : Int) (m : Nat)
    (hi : 1 ≤ l.blockInterval) :
    List.Pairwise (fun c d => c.2 = d.2 ∨ c.2.2 < d.2.1) (roundCalls l st m) := by
  induction m generalizing st with
  | zero => simp [roundCalls]
  | succ m ih =>
    rw [roundCalls_succ, List.pairwise_append]
    refine ⟨?_, ih (st + l.blockInterval), ?_⟩
    · rw [List.pairwise_map]
      exact List.pairwise_of_forall (fun _ _ => Or.inl rfl)
    · rintro ⟨h, lo, hi'⟩ hc ⟨h', lo', hi''⟩ hd
      simp only [List.mem_map, Prod.mk.injEq] at hc
      obtain ⟨_, _, _, rfl, rfl⟩ := hc
      rw [mem_roundCalls] at hd
      obtain ⟨k, _, _, rfl, _⟩ := hd
      have : 0 ≤ (k : Int) * l.blockInterval :=
        Int.mul_nonneg (Int.ofNat_nonneg k) (by omega)
      right
      show st + l.blockInterval - 1 < st + l.blockInterval + (k : Int) * l.blockInterval
      omega

/-! ### Failed ticks -/

theorem calls_append (xs ys : List Event) : calls (xs ++ ys) = calls xs ++ calls ys := by
  simp [calls]

theorem loop_filter (l : EVMListener) (ts : List Tick) (s : State) :
    (loop l s ts).1 = (loop l s (ts.filter succeeded)).1 ∧
      calls (loop l s ts).2 = calls (loop l s (ts.filter succeeded)).2 := by
  induction ts generalizing s with
  | nil => simp [loop]
  | cons t ts ih =>
    cases hl : t.latestBlock with
    | error err =>
      have hf : succeeded t = false := by simp [succeeded, hl]
      simp only [List.filter_cons, hf, loop, tick_error l s t err hl, calls_append]
      exact ⟨(ih s).1, by simpa [calls, isCall] using (ih s).2⟩
    | ok head =>
      have hf : succeeded t = true := by simp [succeeded, hl]
      simp only [List.filter_cons, hf, loop, calls_append, if_true]
      exact ⟨(ih _).1, by rw [(ih _).2]⟩

/-! ### The claims -/

/-- C1: in every tick of a run in which a handler is invoked with a range
`(a, b)`, the head read in that tick satisfies `b ≤ head - blockConfirmations`, and
`head - (start + blockInterval) ≥ blockConfirmations` where `a` is the tick's start. -/
theorem C1_handlers_only_on_confirmed_range (l : EVMListener) (startBlock : Option Int)
    (ts : List Tick) (t : Tick) (head : Int) (h : String) (a b : Int)
    (hhead : t.latestBlock = .ok head)
    (hcall : Event.handleEvent h a b ∈ (tick l (ListenToEvents l startBlock ts).1 t).2) :
    b ≤ head - l.blockConfirmations ∧
      head - (a + l.blockInterval) ≥ l.blockConfirmations ∧
      a = resolveStart (ListenToEvents l startBlock ts).1 head := by
  by_cases hc : head - (resolveStart (ListenToEvents l startBlock ts).1 head + l.blockInterval)
      < l.blockConfirmations
  · rw [tick_wait l _ t head hhead hc] at hcall
    simp at hcall
  · rw [tick_pass l _ t head hhead hc, mem_handlerCalls, handlerCalls_append,
      handlerCalls_runHandlers, handlerCalls_writeBlock] at hcall
    simp only [List.append_nil, List.mem_map, Prod.mk.injEq] at hcall
    obtain ⟨_, _, _, ha, hb⟩ := hcall
    subst ha
    refine ⟨by omega, by omega, rfl⟩

/-- C1, at start 30 with head 100: the handler is invoked with `(30, 39)`. -/
theorem C1_witness :
    39 ≤ 100 - exampleListener.blockConfirmations ∧
      100 - (30 + exampleListener.blockInterval) ≥ exampleListener.blockConfirmations ∧
      (30 : Int) = resolveStart (ListenToEvents exampleListener (some 30) []).1 100 :=
  C1_handlers_only_on_confirmed_range exampleListener (some 30) [] (okTick 100) 100
    "deposit" 30 39 rfl (by decide)

/-- C2 (counterexample): start 30, ranges of 10 blocks, 5 confirmations, head
100 read seven times.  The listener has handled six ranges, its start is 90 and it waits on
head 100; block 93 lies in `[30, 100 - 5]` and has been in no handled range. -/
theorem C2_counterexample :
    1 ≤ exampleListener.blockInterval ∧ 0 ≤ exampleListener.blockConfirmations ∧
      (ListenToEvents exampleListener (some 30) (List.replicate 7 (okTick 100))).1.startBlock
        = some 90 ∧
      100 - (90 + exampleListener.blockInterval) < exampleListener.blockConfirmations ∧
      "deposit" ∈ exampleListener.eventHandlers ∧
      (30 : Int) ≤ 93 ∧ 93 ≤ 100 - exampleListener.blockConfirmations ∧
      scanned (ListenToEvents exampleListener (some 30) (List.replicate 7 (okTick 100))).2
        "deposit" 93 = false := by
  decide

/-- C2 (amended): when a run started at `s0` has reached a state whose start
`st` fails the confirmation check against `head`, every block `b` with
`s0 ≤ b ≤ head - blockConfirmations - blockInterval` has been inside a range passed to every
registered handler. -/
theorem C2_scanned_below_last_full_window (l : EVMListener) (s0 : Int) (ts : List Tick)
    (head st b : Int) (h : String)
    (hst : (ListenToEvents l (some s0) ts).1.startBlock = some st)
    (hwait : head - (st + l.blockInterval) < l.blockConfirmations)
    (h1 : s0 ≤ b) (h2 : b ≤ head - l.blockConfirmations - l.blockInterval)
    (hh : h ∈ l.eventHandlers) :
    scanned (ListenToEvents l (some s0) ts).2 h b = true := by
  obtain ⟨m, hm, hcalls, _, _⟩ := run_rounds l (some s0) ts s0 rfl
  rw [hm, Option.some.injEq] at hst
  obtain ⟨k, hk, h3, h4⟩ := round_of_block l.blockInterval s0 b m h1 (by omega)
  rw [scanned_iff]
  refine ⟨_, _, ?_, h3, h4⟩
  rw [hcalls, mem_roundCalls]
  exact ⟨k, hk, hh, rfl, rfl⟩

/-- C2 (amended), at start 30 with head 100 read seven times: block 85 is scanned. -/
theorem C2_witness :
    scanned (ListenToEvents exampleListener (some 30) (List.replicate 7 (okTick 100))).2
      "deposit" 85 = true :=
  C2_scanned_below_last_full_window exampleListener 30 (List.replicate 7 (okTick 100))
    100 90 85 "deposit" (by decide) (by decide) (by decide) (by decide) (by decide)

/-- C3 (code at the failing input): with an unspecified start and a first head of `2^63`, the
start is `-2^63`, not the head, and the first range handled is `(-2^63, -2^63 + 9)`. -/
theorem C3_start_truncated_to_int64 :
    resolveStart ⟨none, 0⟩ (2 ^ 63) = -(2 ^ 63) ∧
      handlerCalls (ListenToEvents exampleListener none [okTick (2 ^ 63)]).2 =
        [("deposit", -(2 ^ 63), -(2 ^ 63) + 9)] := by
  decide

/-- C4: in a tick that passes the confirmation check, the handler calls are
exactly one call per registered handler, in registration order, each with
`(start, start + blockInterval - 1)`, whatever the handlers return. -/
theorem C4_every_handler_once_in_order (l : EVMListener) (startBlock : Option Int)
    (ts : List Tick) (t : Tick) (head : Int)
    (hhead : t.latestBlock = .ok head)
    (hconf : ¬ head - (resolveStart (ListenToEvents l startBlock ts).1 head + l.blockInterval)
      < l.blockConfirmations) :
    handlerCalls (tick l (ListenToEvents l startBlock ts).1 t).2 =
      l.eventHandlers.map (fun h =>
        (h, resolveStart (ListenToEvents l startBlock ts).1 head,
          resolveStart (ListenToEvents l startBlock ts).1 head + l.blockInterval - 1)) := by
  rw [tick_pass l _ t head hhead hconf, handlerCalls_append, handlerCalls_runHandlers,
    handlerCalls_writeBlock, List.append_nil]

/-- C4, at start 30 with head 100, two handlers that both fail. -/
theorem C4_witness :
    handlerCalls (tick ⟨["erc20", "erc721"], 1, 5, 5, 10⟩
        (ListenToEvents ⟨["erc20", "erc721"], 1, 5, 5, 10⟩ (some 30) []).1 (failTick 100)).2 =
      [("erc20", 30, 39), ("erc721", 30, 39)] :=
  C4_every_handler_once_in_order ⟨["erc20", "erc721"], 1, 5, 5, 10⟩ (some 30) []
    (failTick 100) 100 rfl (by decide)

/-- C5: in a tick that passes the confirmation check, whatever the handlers
and the store return, the trace is the handler calls, then the one `StoreBlock` call with
`start + blockInterval` and the listener's domain id, then no further call; the next start is
`start + blockInterval`; nothing is sent on the error channel. -/
theorem C5_store_once_then_advance (l : EVMListener) (startBlock : Option Int)
    (ts : List Tick) (t : Tick) (head : Int)
    (hhead : t.latestBlock = .ok head)
    (hconf : ¬ head - (resolveStart (ListenToEvents l startBlock ts).1 head + l.blockInterval)
      < l.blockConfirmations) :
    (∃ pre post, (tick l (ListenToEvents l startBlock ts).1 t).2 =
        pre ++ Event.storeBlock
          (resolveStart (ListenToEvents l startBlock ts).1 head + l.blockInterval)
          l.domainID t.storeBlock :: post ∧
        handlerCalls pre = l.eventHandlers.map (fun h =>
          (h, resolveStart (ListenToEvents l startBlock ts).1 head,
            resolveStart (ListenToEvents l startBlock ts).1 head + l.blockInterval - 1)) ∧
        storeCalls pre = [] ∧ handlerCalls post = [] ∧ storeCalls post = []) ∧
      storeCalls (tick l (ListenToEvents l startBlock ts).1 t).2 =
        [(resolveStart (ListenToEvents l startBlock ts).1 head + l.blockInterval, l.domainID)] ∧
      (tick l (ListenToEvents l startBlock ts).1 t).1.startBlock =
        some (resolveStart (ListenToEvents l startBlock ts).1 head + l.blockInterval) ∧
      errChnSends (tick l (ListenToEvents l startBlock ts).1 t).2 = [] := by
  rw [tick_pass l _ t head hhead hconf]
  refine ⟨?_, ?_, rfl, ?_⟩
  · refine ⟨runHandlers t _ _ 0 l.eventHandlers,
      (match t.storeBlock with | some err => [Event.logError err] | none => []),
      ?_, handlerCalls_runHandlers _ _ _ _ _, storeCalls_runHandlers _ _ _ _ _, ?_, ?_⟩
    · cases hs : t.storeBlock <;> simp [writeBlock, hs]
    · cases hs : t.storeBlock <;> simp [handlerCalls]
    · cases hs : t.storeBlock <;> simp [storeCalls]
  · simp [storeCalls_append, storeCalls_runHandlers, storeCalls_writeBlock]
  · simp [errChnSends_append, errChnSends_runHandlers, errChnSends_writeBlock]

/-- C5, at start 30 with head 100, every handler and the store failing. -/
theorem C5_witness :
    storeCalls (tick exampleListener (ListenToEvents exampleListener (some 30) []).1
        (failTick 100)).2 = [(40, 1)] ∧
      (tick exampleListener (ListenToEvents exampleListener (some 30) []).1
        (failTick 100)).1.startBlock = some 40 ∧
      errChnSends (tick exampleListener (ListenToEvents exampleListener (some 30) []).1
        (failTick 100)).2 = [] :=
  (C5_store_once_then_advance exampleListener (some 30) [] (failTick 100) 100 rfl
    (by decide)).2

/-- C6 (counterexample): start 30, interval 10, confirmations 5, head 100.  In
the first iteration, after `StoreBlock(40)` has succeeded (line 86) and before line 91 has
advanced the start, the listener is in a state whose last persisted value 40 is greater than
its start 30. -/
theorem C6_counterexample :
    1 ≤ exampleListener.blockInterval ∧
      (([Event.handleEvent "deposit" 30 39, Event.storeBlock 40 1 none], ⟨some 30, 40⟩) :
          List Event × State) ∈ reachable exampleListener ⟨some 30, 0⟩ [okTick 100] ∧
      (persisted [Event.handleEvent "deposit" 30 39, Event.storeBlock 40 1 none]).getLast?
        = some 40 ∧
      ¬ (40 : Int) ≤ 30 := by
  decide

/-- C6 (amended): in a run started at `s0` with `blockInterval ≥ 1`, whatever
the handlers and the store return: in every reachable state, inside an iteration too, if `c`
is the last value persisted successfully so far then every block of `[s0, c)` has already
been inside a range passed to every registered handler and `c ≤ start + blockInterval`; the
state at the head of the loop is a reachable state, and there `c ≤ start`. -/
theorem C6_persisted_blocks_already_handled (l : EVMListener) (s0 : Int) (ts : List Tick)
    (hi : 1 ≤ l.blockInterval) :
    (∀ p ∈ reachable l ⟨some s0, 0⟩ ts, ∀ c, (persisted p.1).getLast? = some c →
        (∀ b, s0 ≤ b → b < c → ∀ h ∈ l.eventHandlers, scanned p.1 h b = true) ∧
        ∃ st, p.2.startBlock = some st ∧ c ≤ st + l.blockInterval) ∧
      ((ListenToEvents l (some s0) ts).2, (ListenToEvents l (some s0) ts).1)
        ∈ reachable l ⟨some s0, 0⟩ ts ∧
      (∃ st, (ListenToEvents l (some s0) ts).1.startBlock = some st ∧
        ∀ c, (persisted (ListenToEvents l (some s0) ts).2).getLast? = some c → c ≤ st) := by
  refine ⟨?_, loop_mem_reachable l ts _, ?_⟩
  · intro p hp c hc
    have hmem : c ∈ persisted p.1 := List.mem_of_getLast?_eq_some hc
    constructor
    · intro b h1 h2 h hh
      obtain ⟨suf, hsuf⟩ := reachable_split l ts _ p hp
      have := loop_safe l s0 (by omega) ts s0 0 [] (fun b h1 h2 => by omega)
        (fun c hc => by simp [persisted] at hc) p.1 suf hsuf c
        (by rw [List.nil_append]; exact hmem) b h1 h2 h hh
      simpa using this
    · obtain ⟨st, h1, _, h3⟩ := reachable_bound l (by omega) ts s0 0 []
        (fun c hc => by simp [persisted] at hc) p hp
      exact ⟨st, h1, h3 c (by rw [List.nil_append]; exact hmem)⟩
  · obtain ⟨m, hm, _, hstores, _⟩ := run_rounds l (some s0) ts s0 rfl
    refine ⟨_, hm, ?_⟩
    intro c hc
    obtain ⟨d, hd⟩ := persisted_sub_storeCalls _ c (List.mem_of_getLast?_eq_some hc)
    rw [hstores, mem_roundStores] at hd
    obtain ⟨k, hk, rfl, _⟩ := hd
    have := round_le l.blockInterval k m (by omega) hk
    omega

/-- C6 (amended), at start 30, interval 10, confirmations 5, head 100 read twice: in the
state right after 40 has been persisted, block 37 has been handled (range `(30, 39)`) and
`40 ≤ 30 + 10`. -/
theorem C6_witness :
    (∀ b, (30 : Int) ≤ b → b < 40 → ∀ h ∈ exampleListener.eventHandlers,
        scanned [Event.handleEvent "deposit" 30 39, Event.storeBlock 40 1 none] h b = true) ∧
      ∃ st, (State.mk (some 30) 40).startBlock = some st ∧
        40 ≤ st + exampleListener.blockInterval :=
  (C6_persisted_blocks_already_handled exampleListener 30 [okTick 100, okTick 100]
    (by decide)).1
    ([Event.handleEvent "deposit" 30 39, Event.storeBlock 40 1 none], ⟨some 30, 40⟩)
    (by decide) 40 (by decide)

/-- C7: with `blockInterval ≥ 1`, the values passed to `StoreBlock` in one run
are strictly increasing, all for the listener's domain, and each is greater than the start of
the first window (the `startBlock` argument when one is given). -/
theorem C7_stored_values_increase (l : EVMListener) (startBlock : Option Int)
    (ts : List Tick) (hi : 1 ≤ l.blockInterval) :
    List.Pairwise (fun a b => a < b)
        ((storeCalls (ListenToEvents l startBlock ts).2).map Prod.fst) ∧
      (∀ c ∈ storeCalls (ListenToEvents l startBlock ts).2, c.2 = l.domainID) ∧
      (∀ s0, initialStart startBlock ts = some s0 →
        ∀ c ∈ storeCalls (ListenToEvents l startBlock ts).2, s0 < c.1) := by
  cases h0 : initialStart startBlock ts with
  | none =>
    obtain ⟨_, hs⟩ := run_no_start l startBlock ts h0
    simp [hs]
  | some s0 =>
    obtain ⟨m, _, _, hs, _⟩ := run_rounds l startBlock ts s0 h0
    rw [hs]
    refine ⟨roundStores_increasing l s0 m hi, ?_, ?_⟩
    · rintro ⟨c, d⟩ hc
      rw [mem_roundStores] at hc
      obtain ⟨_, _, _, rfl⟩ := hc
      rfl
    · intro s0' hs0 ⟨c, d⟩ hc
      rw [Option.some.injEq] at hs0
      subst hs0
      rw [mem_roundStores] at hc
      obtain ⟨k, _, rfl, _⟩ := hc
      have h1 : 0 ≤ (k : Int) * l.blockInterval :=
        Int.mul_nonneg (Int.ofNat_nonneg k) (by omega)
      have h2 : ((k : Int) + 1) * l.blockInterval = (k : Int) * l.blockInterval +
          l.blockInterval := by ring
      show s0 < s0 + ((k : Int) + 1) * l.blockInterval
      omega

/-- C7, at start 30 with head 100 read three times, every store failing. -/
theorem C7_witness :
    List.Pairwise (fun a b => a < b)
        ((storeCalls (ListenToEvents exampleListener (some 30)
          (List.replicate 3 (failTick 100))).2).map Prod.fst) ∧
      (∀ c ∈ storeCalls (ListenToEvents exampleListener (some 30)
          (List.replicate 3 (failTick 100))).2, c.2 = exampleListener.domainID) ∧
      (∀ s0, initialStart (some 30) (List.replicate 3 (failTick 100)) = some s0 →
        ∀ c ∈ storeCalls (ListenToEvents exampleListener (some 30)
          (List.replicate 3 (failTick 100))).2, s0 < c.1) :=
  C7_stored_values_increase exampleListener (some 30) (List.replicate 3 (failTick 100))
    (by decide)

/-- C8 (counterexample): with an unspecified start, a tick that reads head 100
fails the confirmation check (`100 - (100 + 10) < 5`) and yet changes the start, from
unspecified to 100.  The change is observable: after it head 200 makes the listener handle
`(100, 109)`, without it head 200 makes it handle nothing. -/
theorem C8_counterexample :
    firstHead [okTick 100] = some 100 ∧
      100 - (resolveStart ⟨none, 0⟩ 100 + exampleListener.blockInterval)
        < exampleListener.blockConfirmations ∧
      (tick exampleListener ⟨none, 0⟩ (okTick 100)).1.startBlock ≠ (State.mk none 0).startBlock ∧
      handlerCalls (ListenToEvents exampleListener none [okTick 100, okTick 200]).2 =
        [("deposit", 100, 109)] ∧
      handlerCalls (ListenToEvents exampleListener none [okTick 200]).2 = [] := by
  decide

/-- C8 (amended): a tick in which `LatestBlock` returns an error leaves the
state unchanged, invokes no handler, makes no `StoreBlock` call and sends nothing on the error
channel.  A tick that fails the confirmation check invokes no handler, makes no `StoreBlock`
call and sends nothing on the error channel; it leaves the start unchanged when the start
was set, and when the start was unspecified and the head read lies in `[0, 2^63)` it sets the
start to that head.  For every run, the handler and `StoreBlock` calls, in order, and the
final state are those of the run with the failed `LatestBlock` calls removed. -/
theorem C8_failed_ticks_change_nothing (l : EVMListener) (s : State) (t : Tick)
    (startBlock : Option Int) (ts : List Tick) :
    (∀ err, t.latestBlock = .error err →
        (tick l s t).1 = s ∧ handlerCalls (tick l s t).2 = [] ∧
          storeCalls (tick l s t).2 = [] ∧ errChnSends (tick l s t).2 = []) ∧
      (∀ head, t.latestBlock = .ok head →
        head - (resolveStart s head + l.blockInterval) < l.blockConfirmations →
          handlerCalls (tick l s t).2 = [] ∧ storeCalls (tick l s t).2 = [] ∧
            errChnSends (tick l s t).2 = [] ∧
            (∀ b, s.startBlock = some b → (tick l s t).1.startBlock = s.startBlock) ∧
            (s.startBlock = none → 0 ≤ head → head < 2 ^ 63 →
              (tick l s t).1.startBlock = some head)) ∧
      calls (ListenToEvents l startBlock ts).2 =
        calls (ListenToEvents l startBlock (ts.filter succeeded)).2 ∧
      (ListenToEvents l startBlock ts).1 =
        (ListenToEvents l startBlock (ts.filter succeeded)).1 := by
  refine ⟨?_, ?_, (loop_filter l ts _).2, (loop_filter l ts _).1⟩
  · intro err hl
    rw [tick_error l s t err hl]
    simp [handlerCalls, storeCalls, errChnSends]
  · intro head hl hc
    rw [tick_wait l s t head hl hc]
    refine ⟨by simp [handlerCalls], by simp [storeCalls], by simp [errChnSends], ?_, ?_⟩
    · intro b hb
      simp [resolveStart, hb]
    · intro hn h0 h1
      obtain ⟨sb, e⟩ := s
      simp only at hn
      subst hn
      simp only [resolveStart_of_fits e head h0 h1]

/-- C8 (amended): a failed tick at start 30 leaves the state as it was; a tick that waits
leaves a set start 30 as it was and sets an unspecified start to the head 100; five failed
`LatestBlock` calls followed by a success behave as the success alone. -/
theorem C8_witness :
    (tick exampleListener ⟨some 30, 0⟩ errTick).1 = ⟨some 30, 0⟩ ∧
      (tick exampleListener ⟨some 30, 0⟩ (okTick 42)).1.startBlock = some 30 ∧
      (tick exampleListener ⟨none, 0⟩ (okTick 100)).1.startBlock = some 100 ∧
      calls (ListenToEvents exampleListener (some 30)
          (List.replicate 5 errTick ++ [okTick 100])).2 =
        calls (ListenToEvents exampleListener (some 30) [okTick 100]).2 :=
  ⟨((C8_failed_ticks_change_nothing exampleListener ⟨some 30, 0⟩ errTick (some 30)
      []).1 "rpc" rfl).1,
    ((C8_failed_ticks_change_nothing exampleListener ⟨some 30, 0⟩ (okTick 42) (some 30)
      []).2.1 42 rfl (by decide)).2.2.2.1 30 rfl,
    ((C8_failed_ticks_change_nothing exampleListener ⟨none, 0⟩ (okTick 100) none
      []).2.1 100 rfl (by decide)).2.2.2.2 rfl (by decide) (by decide),
    (C8_failed_ticks_change_nothing exampleListener ⟨some 30, 0⟩ errTick (some 30)
      (List.replicate 5 errTick ++ [okTick 100])).2.2.1⟩

/-- C9 (counterexample): a listener whose handler list holds the handler
`deposit` twice, started at 30 with head 100: in one run the range `(30, 39)`, and so each of
its blocks, is passed to `deposit` twice. -/
theorem C9_counterexample :
    1 ≤ twiceListener.blockInterval ∧
      handlerCalls (ListenToEvents twiceListener (some 30) [okTick 100]).2 =
        [("deposit", 30, 39), ("deposit", 30, 39)] := by
  decide

/-- C9 (amended): a run started at `s0` with `blockInterval = i ≥ 1` performs
some number `m` of rounds (the number of `StoreBlock` calls); round `k` hands
`(s0 + k*i, s0 + (k+1)*i - 1)` to every entry of the handler list, in order, and then offers
`s0 + (k+1)*i` to `StoreBlock`.  Each range is non-empty and the next range starts right
after the previous one ends.  Of two handler calls the later has the same range (same round)
or a range entirely above the earlier one; when no handler is in the list twice, two calls to
one handler have disjoint ranges in increasing order, so no block is passed to it twice. -/
theorem C9_rounds_are_consecutive (l : EVMListener) (s0 : Int) (ts : List Tick)
    (hi : 1 ≤ l.blockInterval) :
    handlerCalls (ListenToEvents l (some s0) ts).2 =
        (List.range (storeCalls (ListenToEvents l (some s0) ts).2).length).flatMap
          (fun (k : Nat) => l.eventHandlers.map (fun h =>
            (h, s0 + (k : Int) * l.blockInterval,
              s0 + ((k : Int) + 1) * l.blockInterval - 1))) ∧
      storeCalls (ListenToEvents l (some s0) ts).2 =
        (List.range (storeCalls (ListenToEvents l (some s0) ts).2).length).map
          (fun (k : Nat) => (s0 + ((k : Int) + 1) * l.blockInterval, l.domainID)) ∧
      (∀ k : Nat, s0 + (k : Int) * l.blockInterval ≤
          s0 + ((k : Int) + 1) * l.blockInterval - 1 ∧
        s0 + (((k + 1 : Nat) : Int)) * l.blockInterval =
          (s0 + ((k : Int) + 1) * l.blockInterval - 1) + 1) ∧
      List.Pairwise (fun c d => c.2 = d.2 ∨ c.2.2 < d.2.1)
        (handlerCalls (ListenToEvents l (some s0) ts).2) ∧
      (l.eventHandlers.Nodup →
        List.Pairwise (fun c d => c.1 = d.1 → c.2.2 < d.2.1)
          (handlerCalls (ListenToEvents l (some s0) ts).2)) := by
  obtain ⟨m, _, hcalls, hstores, _⟩ := run_rounds l (some s0) ts s0 rfl
  have hlen : (storeCalls (ListenToEvents l (some s0) ts).2).length = m := by
    rw [hstores]
    simp [roundStores]
  rw [hlen]
  refine ⟨hcalls, hstores, ?_, ?_, ?_⟩
  · intro k
    have h2 : ((k : Int) + 1) * l.blockInterval = (k : Int) * l.blockInterval +
        l.blockInterval := by ring
    constructor
    · omega
    · push_cast
      omega
  · rw [hcalls]
    exact roundCalls_ordered l s0 m hi
  · intro hn
    rw [hcalls]
    exact roundCalls_disjoint l s0 m hi hn

/-- C9 (amended), at start 30 with head 100 read three times; the one handler is in the list
once, so its three ranges are disjoint and increasing. -/
theorem C9_witness :
    handlerCalls (ListenToEvents exampleListener (some 30) (List.replicate 3 (okTick 100))).2 =
        [("deposit", 30, 39), ("deposit", 40, 49), ("deposit", 50, 59)] ∧
      storeCalls (ListenToEvents exampleListener (some 30) (List.replicate 3 (okTick 100))).2 =
        [(40, 1), (50, 1), (60, 1)] ∧
      List.Pairwise (fun c d => c.1 = d.1 → c.2.2 < d.2.1)
        (handlerCalls (ListenToEvents exampleListener (some 30)
          (List.replicate 3 (okTick 100))).2) :=
  ⟨(C9_rounds_are_consecutive exampleListener 30 (List.replicate 3 (okTick 100))
      (by decide)).1.trans (by decide),
    (C9_rounds_are_consecutive exampleListener 30 (List.replicate 3 (okTick 100))
      (by decide)).2.1.trans (by decide),
    (C9_rounds_are_consecutive exampleListener 30 (List.replicate 3 (okTick 100))
      (by decide)).2.2.2.2 (by decide)⟩

end Listener

namespace App

theorem buildChains_voters {V : Type} (env : Env)
    (nvws : EVMMessageHandler → EVMClient → BridgeContract → TransactOptions → Except String V)
    (nv : EVMMessageHandler → EVMClient → BridgeContract → TransactOptions → V)
    (db : BlockStore) (cfgs : List RawChainConfig) :
    ∀ (chains : List (EVMChain V)) (logs : List String),
      buildChains env nvws nv db cfgs = .ok (chains, logs) →
      List.Forall₂ (fun chainConfig chain => ∃ p, chainParts env chainConfig = .ok p ∧
        (∀ v, nvws p.mh p.client p.bridgeContract p.transactOptions = .ok v →
          chain.voter = v) ∧
        (∀ err, nvws p.mh p.client p.bridgeContract p.transactOptions = .error err →
          chain.voter = nv p.mh p.client p.bridgeContract p.transactOptions)) cfgs chains := by
  induction cfgs with
  | nil =>
    intro chains logs h
    simp only [buildChains, Except.ok.injEq, Prod.mk.injEq] at h
    rw [← h.1]
    exact List.Forall₂.nil
  | cons c rest ih =>
    intro chains logs h
    unfold buildChains at h
    split at h
    · cases hp : chainParts env c with
      | error err => simp [hp] at h
      | ok p =>
        cases hr : buildChains env nvws nv db rest with
        | error err => simp [hp, hr] at h
        | ok r =>
          simp only [hp, hr, Except.ok.injEq, Prod.mk.injEq] at h
          rw [← h.1]
          refine List.Forall₂.cons ⟨p, hp, ?_, ?_⟩ (ih r.1 r.2 hr)
          · intro v hv
            simp [selectVoter, hv]
          · intro err hv
            simp [selectVoter, hv]
    · simp at h

theorem buildChains_any_subscription {V : Type} (env : Env)
    (nvws nvws' :
      EVMMessageHandler → EVMClient → BridgeContract → TransactOptions → Except String V)
    (nv : EVMMessageHandler → EVMClient → BridgeContract → TransactOptions → V)
    (db : BlockStore) (cfgs : List RawChainConfig) :
    ∀ r, buildChains env nvws nv db cfgs = .ok r →
      ∃ r', buildChains env nvws' nv db cfgs = .ok r' ∧ r'.1.length = cfgs.length := by
  induction cfgs with
  | nil =>
    intro r _
    exact ⟨([], []), rfl, rfl⟩
  | cons c rest ih =>
    intro r h
    unfold buildChains at h
    split at h
    · rename_i htype
      cases hp : chainParts env c with
      | error err => simp [hp] at h
      | ok p =>
        cases hr : buildChains env nvws nv db rest with
        | error err => simp [hp, hr] at h
        | ok r0 =>
          obtain ⟨r', hr', hlen⟩ := ih r0 hr
          refine ⟨(⟨p.evmListener, (selectVoter nvws' nv p).1, db, p.config.id⟩ :: r'.1,
            (selectVoter nvws' nv p).2 ++ r'.2), ?_, ?_⟩
          · unfold buildChains
            rw [if_pos htype]
            simp only [hp, hr']
          · simp [hlen]
    · simp at h

/-- C10: when `Run` reaches `relayer.NewRelayer`, every chain configuration has
its chain in the chain set, in order; the chain's voter is the one returned by
`NewVoterWithSubscription` when that call succeeds and is
`NewVoter(mh, client, bridgeContract, transactOptions)`, on the same four values, when it
returns an error.  With any other outcome of `NewVoterWithSubscription` (failure included)
`Run` reaches `NewRelayer` as well, with one chain per configuration. -/
theorem C10_subscription_failure_falls_back {V : Type} (env : Env)
    (nvws : EVMMessageHandler → EVMClient → BridgeContract → TransactOptions → Except String V)
    (nv : EVMMessageHandler → EVMClient → BridgeContract → TransactOptions → V)
    (chains : List (EVMChain V)) (logs : List String)
    (hrun : Run env nvws nv = .ok (chains, logs)) :
    ∃ configuration, env.getConfig env.configFlag = .ok configuration ∧
      List.Forall₂ (fun chainConfig chain => ∃ p, chainParts env chainConfig = .ok p ∧
        (∀ v, nvws p.mh p.client p.bridgeContract p.transactOptions = .ok v →
          chain.voter = v) ∧
        (∀ err, nvws p.mh p.client p.bridgeContract p.transactOptions = .error err →
          chain.voter = nv p.mh p.client p.bridgeContract p.transactOptions))
        configuration chains ∧
      ∀ nvws' : EVMMessageHandler → EVMClient → BridgeContract → TransactOptions →
          Except String V,
        ∃ r, Run env nvws' nv = .ok r ∧ r.1.length = configuration.length := by
  unfold Run at hrun
  cases hc : env.getConfig env.configFlag with
  | error err => simp [hc] at hrun
  | ok configuration =>
    cases hd : env.newLvlDB env.blockstoreFlag with
    | error err => simp [hc, hd] at hrun
    | ok db =>
      simp only [hc, hd] at hrun
      refine ⟨configuration, rfl, buildChains_voters env nvws nv db configuration chains logs hrun,
        ?_⟩
      intro nvws'
      obtain ⟨r', hr', hlen⟩ :=
        buildChains_any_subscription env nvws nvws' nv db configuration _ hrun
      exact ⟨r', by simp only [Run, hc, hd, hr'], hlen⟩

/-- C10, one EVM chain whose subscription fails: `Run` does not abort and the
chain is bound to the polling voter. -/
theorem C10_witness :
    ∃ configuration, exampleEnv.getConfig exampleEnv.configFlag = .ok configuration ∧
      List.Forall₂ (fun chainConfig chain => ∃ p, chainParts exampleEnv chainConfig = .ok p ∧
        (∀ v, failingSubscription p.mh p.client p.bridgeContract p.transactOptions = .ok v →
          chain.voter = v) ∧
        (∀ err, failingSubscription p.mh p.client p.bridgeContract p.transactOptions
            = .error err →
          chain.voter = pollingVoter p.mh p.client p.bridgeContract p.transactOptions))
        configuration
        [(⟨⟨["DepositEventHandler"], 1, 5, 5, 10⟩, ("polling", 2000000),
          ⟨"./lvldbdata"⟩, 1⟩ : EVMChain (String × Nat))] ∧
      ∀ nvws' : EVMMessageHandler → EVMClient → BridgeContract → TransactOptions →
          Except String (String × Nat),
        ∃ r, Run exampleEnv nvws' pollingVoter = .ok r ∧
          r.1.length = configuration.length :=
  C10_subscription_failure_falls_back exampleEnv failingSubscription pollingVoter
    [⟨⟨["DepositEventHandler"], 1, 5, 5, 10⟩, ("polling", 2000000), ⟨"./lvldbdata"⟩, 1⟩]
    ["failed creating voter with subscription: no websocket. Falling back to default voter."]
    rfl

end App
